import Mathlib

/-! ## utm: serialising typed options into one argument string

A shallow embedding of `main.go` (package `utm`) and the properties of its
option model and option processor.

Modelling conventions

* A Go `string` is a Lean `String` (written `GoString` below, because the
  package itself declares a function called `String`).  The code only
  concatenates strings and compares them for equality.
* Go `uint` and `int` are `Nat` and `Int`; the conversions `uint64(v)` and
  `int64(v)` are written out as reductions modulo `2 ^ 64`.  Theorems about
  `Uint` and `Int` carry the range of the Go type as a hypothesis (the 64-bit
  range, which contains the 32-bit one).
* A `bytes.Buffer` is the string written so far.
* Function-typed fields are total pure functions.
-/

/-- A Go `string`. -/
abbrev GoString := String

namespace Utm

/-! ## The data model (`main.go`, lines 10-33) -/

/-- `StringArray`: an option with a parameter name and a slice of values. -/
structure StringArray where
  Param : GoString
  Values : List GoString

/-- `GenericOption[T]`: a scalar option with its equality predicate and its
formatter. -/
structure GenericOption (T : Type) where
  isDefault : T → T → Bool
  toString : T → GoString
  Value : T
  defaultValue : T
  param : GoString

/-- `bytes.Buffer`, as far as the package uses it: the bytes written so far.
The zero value is the empty buffer. -/
structure Buffer where
  written : GoString := ""

/-- `(*bytes.Buffer).WriteString`: append to the buffer. -/
def Buffer.WriteString (b : Buffer) (s : GoString) : Buffer :=
  { written := b.written ++ s }

/-- `(*bytes.Buffer).String`: the contents of the buffer. -/
def Buffer.contents (b : Buffer) : GoString :=
  b.written

/-! ## `strconv` (Go standard library, base 10 only) -/

/-- The conversion `uint64(v)`. -/
def toUint64 (v : Int) : Nat :=
  (v % 18446744073709551616).toNat

/-- The conversion `int64(v)`. -/
def toInt64 (v : Int) : Int :=
  (v + 9223372036854775808) % 18446744073709551616 - 9223372036854775808

/-- Modelled from the spec: `strconv`'s digit loop (`formatBits`, Go standard
library, not part of the repository) for base 10, "base-10 unsigned
formatting".  Digits are produced least significant first and stored in front
of the ones already written; `fuel` bounds the number of digits. -/
def formatBits (fuel : Nat) (u : Nat) (a : List Char) : List Char :=
  match fuel with
  | 0 => a
  | fuel + 1 =>
    if u < 10 then Nat.digitChar u :: a
    else formatBits fuel (u / 10) (Nat.digitChar (u % 10) :: a)

/-- Modelled from the spec: `strconv.FormatUint(i, 10)` (Go standard library),
"base-10 unsigned formatting".  A `uint64` has at most 20 decimal digits. -/
def FormatUint (i : Nat) : GoString :=
  String.mk (formatBits 20 i [])

/-- Modelled from the spec: `strconv.FormatInt(i, 10)` (Go standard library),
"base-10 signed formatting": the digits of the magnitude, computed on
`uint64(i)` negated modulo `2 ^ 64` when `i` is negative, after a `-` sign in
that case. -/
def FormatInt (i : Int) : GoString :=
  let neg : Bool := decide (i < 0)
  let u : Nat := toUint64 i
  let u : Nat := if neg then (18446744073709551616 - u) % 18446744073709551616 else u
  let a : List Char := formatBits 20 u []
  String.mk (if neg then '-' :: a else a)

/-- Modelled from the spec: `strconv.Itoa(i)` is `FormatInt(int64(i), 10)`. -/
def Itoa (i : Int) : GoString :=
  FormatInt (toInt64 i)

/-! ## Scalar options (`main.go`, lines 44-76) -/

/-- `NewGenericOption`: stores its five arguments. -/
def NewGenericOption {T : Type} (param : GoString) (value : T) (defaultValue : T)
    (isDefault : T → T → Bool) (toString : T → GoString) : GenericOption T :=
  { param := param
    Value := value
    defaultValue := defaultValue
    isDefault := isDefault
    toString := toString }

/-- `(*GenericOption[T]).OptionString`. -/
def GenericOption.OptionString {T : Type} (o : GenericOption T) : GoString :=
  if !o.isDefault o.Value o.defaultValue then
    o.param ++ " " ++ o.toString o.Value ++ " "
  else
    ""

/-- `Uint`: a scalar option over `uint`. -/
def Uint (param : GoString) (value : Nat) (defaultValue : Nat) : GenericOption Nat :=
  NewGenericOption param value defaultValue (fun a b => a == b)
    (fun v => FormatUint (toUint64 v))

/-- `String`: a scalar option over `string`. -/
def String (param : GoString) (value : GoString) (defaultValue : GoString) :
    GenericOption GoString :=
  NewGenericOption param value defaultValue (fun a b => a == b) (fun v => v)

/-- `Int`: a scalar option over `int`. -/
def Int (param : GoString) (value : ℤ) (defaultValue : ℤ) : GenericOption ℤ :=
  NewGenericOption param value defaultValue (fun a b => a == b) (fun v => Itoa v)

/-! ## Array options (`main.go`, lines 78-87) -/

/-- `StringArray.OptionString`. -/
def StringArray.OptionString (o : StringArray) : GoString :=
  let buf : Buffer := {}
  let buf : Buffer :=
    if o.Values.length > 0 then
      o.Values.foldl (fun buf v => buf.WriteString (o.Param ++ " " ++ v ++ " ")) buf
    else
      buf
  buf.contents

/-! ## The `Option` interface and the processor (`main.go`, lines 15-18, 35-42) -/

/-- `Option`: a value of the interface is a value of one of the two types of
the package that have an `OptionString` method. -/
inductive Option : Type 1 where
  | generic {T : Type} (o : GenericOption T)
  | stringArray (o : StringArray)

/-- Method call `opt.OptionString()` through the interface. -/
def Option.OptionString : Option → GoString
  | .generic o => o.OptionString
  | .stringArray o => o.OptionString

/-- `ProcessOptions`. -/
def ProcessOptions (options : List Option) : GoString :=
  let buf : Buffer := {}
  let buf : Buffer := options.foldl (fun buf opt => buf.WriteString opt.OptionString) buf
  buf.contents

/-! ## Type routing (`main.go`, lines 10-13, 89-104) -/

/-- A value converted to `any`: its dynamic type together with the value.  A
dynamic type the package does not handle is kept by the name `%T` prints for
it. -/
inductive GoAny where
  | string (v : GoString)
  | uint (v : Nat)
  | int (v : ℤ)
  | stringSlice (v : List GoString)
  | other (typeName : GoString)

/-- `HandledTypes`: the type set `string | uint | int | []string` of the
constraint on `routeType`'s type parameter. -/
inductive HandledTypes where
  | string
  | uint
  | int
  | stringSlice

/-- The values of a type of the constraint. -/
def HandledTypes.carrier : HandledTypes → Type
  | .string => GoString
  | .uint => Nat
  | .int => ℤ
  | .stringSlice => List GoString

/-- The conversion `any(x)` for `x` of a type `T` of the constraint. -/
def HandledTypes.toAny : (T : HandledTypes) → T.carrier → GoAny
  | .string, v => .string v
  | .uint, v => .uint v
  | .int, v => .int v
  | .stringSlice, v => .stringSlice v

/-- What a call of `routeType` does: return `(opt, nil)`, return
`(nil, errors.New(msg))`, or stop in the run-time panic of a failed type
assertion. -/
inductive RouteResult : Type 1 where
  | ok (opt : Option)
  | err (msg : GoString)
  | assertionPanic

/-- The body of `routeType`: the type switch on `any(value)`, with the type
assertions on `any(defaultValue)` in its first three cases. -/
def routeSwitch (param : GoString) (value : GoAny) (defaultValue : GoAny) : RouteResult :=
  match value with
  | .string v =>
    match defaultValue with
    | .string d => .ok (.generic (String param v d))
    | _ => .assertionPanic
  | .uint v =>
    match defaultValue with
    | .uint d => .ok (.generic (Uint param v d))
    | _ => .assertionPanic
  | .int v =>
    match defaultValue with
    | .int d => .ok (.generic (Int param v d))
    | _ => .assertionPanic
  | .stringSlice v => .ok (.stringArray { Param := param, Values := v })
  | .other typeName => .err ("unsupported type: " ++ typeName)

/-- `routeType[T HandledTypes]`: `value` and `defaultValue` have the same type
`T`, a member of the constraint. -/
def routeType (T : HandledTypes) (param : GoString) (value : T.carrier)
    (defaultValue : T.carrier) : RouteResult :=
  routeSwitch param (T.toAny value) (T.toAny defaultValue)

/-! ## Specification-side definitions -/

/-- Concatenation of a list of strings in list order, by recursion on the
list. -/
def concatInOrder : List GoString → GoString
  | [] => ""
  | s :: rest => s ++ concatInOrder rest

/-- The base-10 numeral of a natural number: its decimal digits, most
significant first, without sign and without leading zeros; zero is written
`0`. -/
def unsignedNumeral (v : Nat) : GoString :=
  if v = 0 then "0" else String.mk ((Nat.digits 10 v).reverse.map Nat.digitChar)

/-- The base-10 numeral of an integer: the numeral of its magnitude, after a
`-` exactly when the integer is negative. -/
def signedNumeral (v : ℤ) : GoString :=
  if v < 0 then "-" ++ unsignedNumeral v.natAbs else unsignedNumeral v.natAbs

/-- An elided option: a `Uint`, `Int` or `String` option whose value is its
default, or a `StringArray` without values. -/
def Elided (o : Option) : Prop :=
  (∃ p v, o = .generic (Uint p v v)) ∨ (∃ p v, o = .generic (Int p v v)) ∨
    (∃ p v, o = .generic (String p v v)) ∨ (∃ p, o = .stringArray { Param := p, Values := [] })

/-- A call of one of the four typed constructors of the package: `Uint`,
`Int`, `String`, or a `StringArray` literal. -/
inductive Construction where
  | uint (param : GoString) (value : Nat) (defaultValue : Nat)
  | int (param : GoString) (value : ℤ) (defaultValue : ℤ)
  | string (param : GoString) (value : GoString) (defaultValue : GoString)
  | array (param : GoString) (values : List GoString)

/-- The option a constructor call yields. -/
def Construction.build : Construction → Option
  | .uint p v d => .generic (Uint p v d)
  | .int p v d => .generic (Int p v d)
  | .string p v d => .generic (String p v d)
  | .array p vs => .stringArray { Param := p, Values := vs }

/-- The param of a constructor call. -/
def Construction.param : Construction → GoString
  | .uint p _ _ => p
  | .int p _ _ => p
  | .string p _ _ => p
  | .array p _ => p

/-- The text values of a constructor call: the value of a `String` option and
the elements of a `StringArray`; a numeric option has none. -/
def Construction.texts : Construction → List GoString
  | .uint _ _ _ => []
  | .int _ _ _ => []
  | .string _ v _ => [v]
  | .array _ vs => vs

/-- What a constructor call writes, piece by piece: each piece is followed by
one space in the rendering. -/
def Construction.emitted : Construction → List (List Char)
  | .uint p v d => if v = d then [] else [p.data, (FormatUint (toUint64 v)).data]
  | .int p v d => if v = d then [] else [p.data, (Itoa v).data]
  | .string p v d => if v = d then [] else [p.data, v.data]
  | .array p vs => vs.flatMap (fun v => [p.data, v.data])

/-- The characters written for a list of pieces: every piece followed by one
space. -/
def withSpaces (pieces : List (List Char)) : List Char :=
  (pieces.map (fun t => t ++ [' '])).flatten

/-- A text contains no space character. -/
def NoSpace (s : GoString) : Prop :=
  ' ' ∉ s.data

instance (s : GoString) : Decidable (NoSpace s) :=
  inferInstanceAs (Decidable (' ' ∉ s.data))

/-- A text is non-empty and contains no space character. -/
def IsToken (s : GoString) : Prop :=
  s ≠ "" ∧ NoSpace s

instance (s : GoString) : Decidable (IsToken s) :=
  inferInstanceAs (Decidable (s ≠ "" ∧ NoSpace s))

/-- A text begins with a space character. -/
def StartsWithSpace (s : GoString) : Prop :=
  s.data.head? = some ' '

instance (s : GoString) : Decidable (StartsWithSpace s) :=
  inferInstanceAs (Decidable (s.data.head? = some ' '))

/-- A text contains two consecutive space characters. -/
def HasDoubleSpace (s : GoString) : Prop :=
  [' ', ' '] <:+: s.data

instance (s : GoString) : Decidable (HasDoubleSpace s) :=
  inferInstanceAs (Decidable ([' ', ' '] <:+: s.data))

/-- The last character of a text is a space. -/
def EndsWithSpace (s : GoString) : Prop :=
  s.data.getLast? = some ' '

instance (s : GoString) : Decidable (EndsWithSpace s) :=
  inferInstanceAs (Decidable (s.data.getLast? = some ' '))

/-- Splitting a list of characters at every space: the pieces between the
spaces, in order.  A list without a space is one piece, and a list that ends
in a space has an empty last piece. -/
def splitSpaces : List Char → List (List Char)
  | [] => [[]]
  | c :: cs =>
    if c = ' ' then [] :: splitSpaces cs
    else
      match splitSpaces cs with
      | [] => [[c]]
      | piece :: pieces => (c :: piece) :: pieces

/-- Splitting a text on the space character. -/
def splitOnSpace (s : GoString) : List GoString :=
  (splitSpaces s.data).map String.mk

/-- A `String` or `StringArray` constructor call whose param and text values
are tokens and, for `String`, whose value is not the default.  Numeric
options are left out. -/
def Construction.IsCleanText : Construction → Prop
  | .uint _ _ _ => False
  | .int _ _ _ => False
  | .string p v d => IsToken p ∧ IsToken v ∧ v ≠ d
  | .array p vs => IsToken p ∧ ∀ v ∈ vs, IsToken v

instance (c : Construction) : Decidable c.IsCleanText :=
  match c with
  | .uint _ _ _ => inferInstanceAs (Decidable False)
  | .int _ _ _ => inferInstanceAs (Decidable False)
  | .string p v d => inferInstanceAs (Decidable (IsToken p ∧ IsToken v ∧ v ≠ d))
  | .array p vs => inferInstanceAs (Decidable (IsToken p ∧ ∀ v ∈ vs, IsToken v))

/-- The tokens of a `String` or `StringArray` constructor call: `param`,
`value` for a `String` option, and `param`, `element` for each element of an
array, in element order. -/
def Construction.tokens : Construction → List GoString
  | .uint _ _ _ => []
  | .int _ _ _ => []
  | .string p v _ => [p, v]
  | .array p vs => vs.flatMap (fun v => [p, v])

end Utm

namespace Utm

/-! ## Buffers and concatenation -/

theorem foldl_WriteString {α : Type u} (f : α → GoString) (xs : List α) (b : Buffer) :
    (xs.foldl (fun buf x => buf.WriteString (f x)) b).contents =
      b.contents ++ concatInOrder (xs.map f) := by
  induction xs generalizing b with
  | nil => simp [concatInOrder, Buffer.contents]
  | cons x rest ih =>
    rw [List.foldl_cons, ih]
    simp [concatInOrder, Buffer.contents, Buffer.WriteString, String.append_assoc]

theorem concatInOrder_append (xs ys : List GoString) :
    concatInOrder (xs ++ ys) = concatInOrder xs ++ concatInOrder ys := by
  induction xs with
  | nil => simp [concatInOrder]
  | cons x rest ih => simp [concatInOrder, ih, String.append_assoc]

theorem ProcessOptions_eq (options : List Option) :
    ProcessOptions options = concatInOrder (options.map Option.OptionString) := by
  unfold ProcessOptions
  simp only []
  rw [foldl_WriteString Option.OptionString options {}]
  simp [Buffer.contents]

/-! ## C1: the processor concatenates -/

/-- C1: for every sequence of options, `ProcessOptions` returns the
concatenation, in input order, of the `OptionString()` of each element, with
nothing between them; for the empty sequence it returns the empty string. -/
theorem ProcessOptions_concatenation :
    (∀ options : List Option,
      ProcessOptions options = concatInOrder (options.map Option.OptionString)) ∧
    ProcessOptions [] = "" :=
  ⟨ProcessOptions_eq, rfl⟩

/-! ## C2, C3: scalar options -/

/-- C2: a scalar option built by `NewGenericOption` whose predicate reports
`value` and `defaultValue` equal renders as the empty string. -/
theorem GenericOption_elision {T : Type} (param : GoString) (value defaultValue : T)
    (isDefault : T → T → Bool) (toString : T → GoString)
    (h : isDefault value defaultValue = true) :
    (NewGenericOption param value defaultValue isDefault toString).OptionString = "" := by
  simp [GenericOption.OptionString, NewGenericOption, h]

theorem GenericOption_elision_witness :
    (fun a b : Nat => a == b) 7 7 = true ∧
    (NewGenericOption "depth" 7 7 (fun a b : Nat => a == b)
      (fun v => FormatUint v)).OptionString = "" :=
  ⟨by decide, GenericOption_elision "depth" 7 7 (fun a b : Nat => a == b)
    (fun v => FormatUint v) (by decide)⟩

/-- C3: a scalar option built by `NewGenericOption` whose predicate, applied
to `value` first and `defaultValue` second, reports them different renders as
`param + " " + toString(value) + " "`; the constructor stores its five
arguments unchanged. -/
theorem GenericOption_emission {T : Type} (param : GoString) (value defaultValue : T)
    (isDefault : T → T → Bool) (toString : T → GoString)
    (h : isDefault value defaultValue = false) :
    (NewGenericOption param value defaultValue isDefault toString).OptionString =
        param ++ " " ++ toString value ++ " " ∧
      (NewGenericOption param value defaultValue isDefault toString).param = param ∧
      (NewGenericOption param value defaultValue isDefault toString).Value = value ∧
      (NewGenericOption param value defaultValue isDefault toString).defaultValue =
        defaultValue ∧
      (NewGenericOption param value defaultValue isDefault toString).isDefault = isDefault ∧
      (NewGenericOption param value defaultValue isDefault toString).toString = toString := by
  simp [GenericOption.OptionString, NewGenericOption, h]

theorem GenericOption_emission_witness :
    (fun a b : Nat => decide (a ≤ b)) 7 3 = false ∧
    (NewGenericOption "depth" 7 3 (fun a b : Nat => decide (a ≤ b))
      (fun _ => "seven")).OptionString = "depth" ++ " " ++ "seven" ++ " " :=
  ⟨by decide, (GenericOption_emission "depth" 7 3 (fun a b : Nat => decide (a ≤ b))
    (fun _ => "seven") (by decide)).1⟩

/-! ## C4: array options -/

/-- C4: a `StringArray` with parameter `p` renders as the empty string when it
has no values, and in general as the concatenation, in element order, of one
segment `p + " " + v + " "` per value `v`. -/
theorem StringArray_segments :
    (∀ p : GoString, (StringArray.mk p []).OptionString = "") ∧
    (∀ (p : GoString) (vs : List GoString),
      (StringArray.mk p vs).OptionString =
          concatInOrder (vs.map (fun v => p ++ " " ++ v ++ " ")) ∧
        (vs.map (fun v => p ++ " " ++ v ++ " ")).length = vs.length) := by
  refine ⟨fun p => rfl, fun p vs => ⟨?_, by simp⟩⟩
  cases vs with
  | nil => rfl
  | cons v rest =>
    unfold StringArray.OptionString
    simp only [List.length_cons, gt_iff_lt, Nat.zero_lt_succ, if_true]
    rw [foldl_WriteString (fun v => p ++ " " ++ v ++ " ") (v :: rest) {}]
    simp [Buffer.contents]

/-! ## C5, C6: type routing -/

/-- C5: for every `param` and every `value` and `defaultValue` of one of the
four handled types, `routeType` returns a nil error and an option that renders
as the matching constructor does (`String`, `Uint`, `Int`, or the
`StringArray` literal); neither the error branch nor a failing type assertion
is reached. -/
theorem routeType_handled (param : GoString) :
    (∀ v d : GoString, ∃ o, routeType .string param v d = .ok o ∧
      o.OptionString = (String param v d).OptionString) ∧
    (∀ v d : Nat, ∃ o, routeType .uint param v d = .ok o ∧
      o.OptionString = (Uint param v d).OptionString) ∧
    (∀ v d : ℤ, ∃ o, routeType .int param v d = .ok o ∧
      o.OptionString = (Int param v d).OptionString) ∧
    (∀ v d : List GoString, ∃ o, routeType .stringSlice param v d = .ok o ∧
      o.OptionString = (StringArray.mk param v).OptionString) :=
  ⟨fun v d => ⟨.generic (String param v d), rfl, rfl⟩,
   fun v d => ⟨.generic (Uint param v d), rfl, rfl⟩,
   fun v d => ⟨.generic (Int param v d), rfl, rfl⟩,
   fun v _ => ⟨.stringArray (StringArray.mk param v), rfl, rfl⟩⟩

/-- No call of `routeType` at a type of the constraint reaches the default
branch of the type switch or a failing type assertion: every such call
returns an option and a nil error. -/
theorem routeType_total (T : HandledTypes) (param : GoString) (v d : T.carrier) :
    ∃ o, routeType T param v d = .ok o := by
  cases T
  · exact ⟨_, rfl⟩
  · exact ⟨_, rfl⟩
  · exact ⟨_, rfl⟩
  · exact ⟨_, rfl⟩

/-- C6: when the type switch that is the body of `routeType` receives a value
whose dynamic type is none of `string`, `uint`, `int`, `[]string` (for example
a `float64`), it returns no option and an error whose message is
`unsupported type: ` followed by the name of that dynamic type, whatever the
default value is. -/
theorem routeType_unsupported (param typeName : GoString) (defaultValue : GoAny) :
    routeSwitch param (.other typeName) defaultValue =
        .err ("unsupported type: " ++ typeName) ∧
      routeSwitch param (.other "float64") defaultValue =
        .err "unsupported type: float64" ∧
      (∀ opt, routeSwitch param (.other typeName) defaultValue ≠ .ok opt) ∧
      routeSwitch param (.other typeName) defaultValue ≠ .assertionPanic := by
  refine ⟨rfl, rfl, ?_, ?_⟩
  · intro opt h
    simp [routeSwitch] at h
  · intro h
    simp [routeSwitch] at h

/-! ## Decimal formatting -/

theorem formatBits_digits (fuel : Nat) :
    ∀ (u : Nat) (a : List Char), 0 < u → u < 10 ^ fuel →
      formatBits fuel u a = (Nat.digits 10 u).reverse.map Nat.digitChar ++ a := by
  induction fuel with
  | zero =>
    intro u a hu hlt
    simp at hlt
    omega
  | succ f ih =>
    intro u a hu hlt
    unfold formatBits
    split_ifs with h10
    · rw [Nat.digits_of_lt 10 u (by omega) h10]
      simp
    · have hd : Nat.digits 10 u = (u % 10) :: Nat.digits 10 (u / 10) :=
        Nat.digits_def' (by norm_num) hu
      have hq : u / 10 < 10 ^ f := by
        apply Nat.div_lt_of_lt_mul
        rw [pow_succ] at hlt
        omega
      rw [ih (u / 10) _ (by omega) hq, hd]
      simp

theorem FormatUint_eq (i : Nat) (h : i < 2 ^ 64) : FormatUint i = unsignedNumeral i := by
  unfold FormatUint unsignedNumeral
  by_cases h0 : i = 0
  · subst h0
    rfl
  · rw [if_neg h0, formatBits_digits 20 i [] (by omega) (by norm_num at h ⊢; omega)]
    simp

theorem toUint64_of_lt (v : Nat) (h : v < 2 ^ 64) : toUint64 v = v := by
  unfold toUint64
  norm_num at h
  omega

theorem toInt64_of_range (v : ℤ) (h1 : -2 ^ 63 ≤ v) (h2 : v < 2 ^ 63) : toInt64 v = v := by
  unfold toInt64
  norm_num at h1 h2
  omega

theorem FormatInt_eq (i : ℤ) (h1 : -2 ^ 63 ≤ i) (h2 : i < 2 ^ 63) :
    FormatInt i = signedNumeral i := by
  norm_num at h1 h2
  unfold FormatInt signedNumeral toUint64
  by_cases hneg : i < 0
  · have hu : (18446744073709551616 - (i % 18446744073709551616).toNat) %
        18446744073709551616 = i.natAbs := by omega
    simp only [hneg, decide_True, if_true, hu]
    have hpos : 0 < i.natAbs := by omega
    have h0 : i.natAbs ≠ 0 := by omega
    rw [formatBits_digits 20 i.natAbs [] hpos (by norm_num; omega)]
    unfold unsignedNumeral
    rw [if_neg h0, List.append_nil]
    apply String.ext
    simp [String.data_append]
  · have hu : (i % 18446744073709551616).toNat = i.natAbs := by omega
    simp only [hneg, decide_False, if_false, hu, Bool.false_eq_true]
    have hlt : i.natAbs < 2 ^ 64 := by norm_num; omega
    exact FormatUint_eq i.natAbs hlt

/-! ## C7, C8: the typed constructors -/

/-- C7: for every `param`, `Uint(param, v, d)` renders as the empty string
when `v = d` and otherwise as `param`, a space, the unsigned base-10 numeral
of `v` (no sign, no leading zeros) and a space; `Int(param, w, e)` renders as
the empty string when `w = e` and otherwise as `param`, a space, the signed
base-10 numeral of `w` (a leading `-` exactly when `w` is negative) and a
space.  The values range over the Go types `uint` and `int`. -/
theorem Uint_Int_rendering (param : GoString) (v d : Nat) (w e : ℤ)
    (hv : v < 2 ^ 64) (hw1 : -2 ^ 63 ≤ w) (hw2 : w < 2 ^ 63) :
    (Uint param v d).OptionString =
        (if v = d then "" else param ++ " " ++ unsignedNumeral v ++ " ") ∧
      (Int param w e).OptionString =
        (if w = e then "" else param ++ " " ++ signedNumeral w ++ " ") := by
  constructor
  · by_cases h : v = d
    · simp [Uint, NewGenericOption, GenericOption.OptionString, h]
    · simp [Uint, NewGenericOption, GenericOption.OptionString, h, toUint64_of_lt v hv,
        FormatUint_eq v hv]
  · by_cases h : w = e
    · simp [Int, NewGenericOption, GenericOption.OptionString, h]
    · simp [Int, NewGenericOption, GenericOption.OptionString, h, Itoa,
        toInt64_of_range w hw1 hw2, FormatInt_eq w hw1 hw2]

theorem Uint_Int_rendering_witness :
    (12 : Nat) < 2 ^ 64 ∧ (-2 ^ 63 : ℤ) ≤ -77 ∧ (-77 : ℤ) < 2 ^ 63 ∧
    (Uint "n" 12 0).OptionString =
        (if (12 : Nat) = 0 then "" else "n" ++ " " ++ unsignedNumeral 12 ++ " ") ∧
      (Int "n" (-77) 0).OptionString =
        (if (-77 : ℤ) = 0 then "" else "n" ++ " " ++ signedNumeral (-77) ++ " ") :=
  ⟨by norm_num, by norm_num, by norm_num,
    Uint_Int_rendering "n" 12 0 (-77) 0 (by norm_num) (by norm_num) (by norm_num)⟩

/-- C8: for every `param` and strings `v`, `d`, `String(param, v, d)` renders
as the empty string when `v = d` and otherwise as `param + " " + v + " "`,
with `v` itself between the two spaces. -/
theorem String_rendering (param v d : GoString) :
    (String param v d).OptionString = (if v = d then "" else param ++ " " ++ v ++ " ") := by
  by_cases h : v = d <;> simp [String, NewGenericOption, GenericOption.OptionString, h]

/-! ## C9: the example of the package -/

/-- C9: `ProcessOptions` on the four options of the package example returns
the example's output, trailing space included. -/
theorem ProcessOptions_example :
    ProcessOptions
      [.generic (Uint "MyUintOption" 12 0),
       .generic (String "MyStringOption" "Hello" ""),
       .generic (Int "MyIntOption" 77 0),
       .stringArray { Param := "arrayParam", Values := ["one", "two", "three"] }] =
    "MyUintOption 12 MyStringOption Hello MyIntOption 77 arrayParam one arrayParam two arrayParam three " := by
  decide

/-! ## C10: elided options leave no trace -/

theorem Elided_OptionString (o : Option) (h : Elided o) : o.OptionString = "" := by
  rcases h with ⟨p, v, rfl⟩ | ⟨p, v, rfl⟩ | ⟨p, v, rfl⟩ | ⟨p, rfl⟩
  · simp [Option.OptionString, Uint, NewGenericOption, GenericOption.OptionString]
  · simp [Option.OptionString, Int, NewGenericOption, GenericOption.OptionString]
  · simp [Option.OptionString, String, NewGenericOption, GenericOption.OptionString]
  · rfl

/-- C10: an option that is a `Uint`, `Int` or `String` option whose value
equals its default, or a `StringArray` without values, can be removed from any
position of a sequence without changing what `ProcessOptions` returns; alone,
it gives the empty string. -/
theorem ProcessOptions_elided (xs ys : List Option) (o : Option) (h : Elided o) :
    ProcessOptions (xs ++ [o] ++ ys) = ProcessOptions (xs ++ ys) ∧
      ProcessOptions [o] = "" := by
  have ho := Elided_OptionString o h
  simp [ProcessOptions_eq, concatInOrder_append, concatInOrder, ho]

theorem ProcessOptions_elided_witness :
    Elided (.generic (Uint "X" 0 0)) ∧
    ProcessOptions ([.generic (String "a" "b" "")] ++ [.generic (Uint "X" 0 0)] ++
        [.stringArray { Param := "c", Values := ["d"] }]) =
      ProcessOptions ([.generic (String "a" "b" "")] ++
        [.stringArray { Param := "c", Values := ["d"] }]) ∧
    ProcessOptions [.generic (Uint "X" 0 0)] = "" :=
  ⟨Or.inl ⟨"X", 0, rfl⟩,
    ProcessOptions_elided [.generic (String "a" "b" "")]
      [.stringArray { Param := "c", Values := ["d"] }] (.generic (Uint "X" 0 0))
      (Or.inl ⟨"X", 0, rfl⟩)⟩

/-! ## Renderings as lists of characters -/

theorem StringArray_OptionString_eq (p : GoString) (vs : List GoString) :
    (StringArray.mk p vs).OptionString =
      concatInOrder (vs.map (fun v => p ++ " " ++ v ++ " ")) := by
  cases vs with
  | nil => rfl
  | cons v rest =>
    unfold StringArray.OptionString
    simp only [List.length_cons, gt_iff_lt, Nat.zero_lt_succ, if_true]
    rw [foldl_WriteString (fun v => p ++ " " ++ v ++ " ") (v :: rest) {}]
    simp [Buffer.contents]

theorem String_OptionString_of_ne (p v d : GoString) (h : v ≠ d) :
    (String p v d).OptionString = p ++ " " ++ v ++ " " := by
  simp [String, NewGenericOption, GenericOption.OptionString, h]

theorem concatInOrder_data (ss : List GoString) :
    (concatInOrder ss).data = (ss.map String.data).flatten := by
  induction ss with
  | nil => rfl
  | cons s rest ih => simp [concatInOrder, String.data_append, ih]

theorem data_eq_nil_iff (s : GoString) : s.data = [] ↔ s = "" := by
  constructor
  · intro h
    apply String.ext
    simpa using h
  · intro h
    subst h
    rfl

theorem append_space_ends (s : GoString) : EndsWithSpace (s ++ " ") := by
  unfold EndsWithSpace
  rw [String.data_append]
  exact List.getLast?_concat s.data

theorem concatInOrder_ends (ss : List GoString)
    (h : ∀ s ∈ ss, s = "" ∨ EndsWithSpace s) :
    concatInOrder ss = "" ∨ EndsWithSpace (concatInOrder ss) := by
  induction ss with
  | nil => exact Or.inl rfl
  | cons s rest ih =>
    have hrest := ih (fun t ht => h t (List.mem_cons_of_mem s ht))
    have hs := h s (List.mem_cons_self s rest)
    rcases hrest with hr | hr
    · rcases hs with hs | hs
      · left
        simp [concatInOrder, hr, hs]
      · right
        simpa [concatInOrder, hr] using hs
    · right
      unfold EndsWithSpace at hr ⊢
      simp [concatInOrder, String.data_append, List.getLast?_append, hr]

theorem OptionString_ends (o : Option) : o.OptionString = "" ∨ EndsWithSpace o.OptionString := by
  cases o with
  | generic g =>
    by_cases hd : g.isDefault g.Value g.defaultValue = true
    · left
      simp [Option.OptionString, GenericOption.OptionString, hd]
    · right
      simp only [Option.OptionString, GenericOption.OptionString, hd, Bool.not_false,
        if_true]
      exact append_space_ends _
  | stringArray a =>
    cases a with
    | mk p vs =>
      simp only [Option.OptionString]
      rw [StringArray_OptionString_eq]
      apply concatInOrder_ends
      intro s hs
      rw [List.mem_map] at hs
      obtain ⟨v, _, rfl⟩ := hs
      right
      exact append_space_ends _

/-! ## C12: a trailing space -/

/-- C12: for every sequence of options (generic options over any type, with
any predicate and formatter, and string arrays), a non-empty output of
`ProcessOptions` ends in a space. -/
theorem ProcessOptions_trailing_space (options : List Option)
    (h : ProcessOptions options ≠ "") : EndsWithSpace (ProcessOptions options) := by
  rw [ProcessOptions_eq] at h ⊢
  have hall : ∀ s ∈ options.map Option.OptionString, s = "" ∨ EndsWithSpace s := by
    intro s hs
    rw [List.mem_map] at hs
    obtain ⟨o, _, rfl⟩ := hs
    exact OptionString_ends o
  rcases concatInOrder_ends _ hall with h0 | h1
  · exact absurd h0 h
  · exact h1

theorem ProcessOptions_trailing_space_witness :
    ProcessOptions [.generic (NewGenericOption "flag" true false (fun a b => a == b)
        (fun b => if b then "on" else "off")),
      .stringArray { Param := "k", Values := [] }] ≠ "" ∧
    EndsWithSpace (ProcessOptions [.generic (NewGenericOption "flag" true false
        (fun a b => a == b) (fun b => if b then "on" else "off")),
      .stringArray { Param := "k", Values := [] }]) :=
  ⟨by decide, ProcessOptions_trailing_space _ (by decide)⟩

/-! ## C15: arrays are never elided -/

/-- C15: for every `param` and every `[]string` value `vs` and default `d`,
the option `routeType` returns renders as `StringArray{param, vs}` does,
whatever `d` is; when `vs` is the non-empty `v :: rest` and the default is the
same slice, the rendering is still the concatenation of one segment per
element, and it is not empty. -/
theorem routeType_array_no_elision (param : GoString) (vs d : List GoString)
    (v : GoString) (rest : List GoString) :
    (∃ o, routeType .stringSlice param vs d = .ok o ∧
      o.OptionString = (StringArray.mk param vs).OptionString) ∧
    (∃ o, routeType .stringSlice param (v :: rest) (v :: rest) = .ok o ∧
      o.OptionString =
        concatInOrder ((v :: rest).map (fun x => param ++ " " ++ x ++ " ")) ∧
      o.OptionString ≠ "") := by
  refine ⟨⟨.stringArray (StringArray.mk param vs), rfl, rfl⟩,
    ⟨.stringArray (StringArray.mk param (v :: rest)), rfl, ?_, ?_⟩⟩
  · exact StringArray_OptionString_eq param (v :: rest)
  · simp only [Option.OptionString]
    rw [StringArray_OptionString_eq]
    intro h0
    rw [← data_eq_nil_iff] at h0
    simp [concatInOrder, String.data_append] at h0

/-! ## C16: the processor distributes over append -/

/-- C16: for all option sequences `xs` and `ys`,
`ProcessOptions(xs ++ ys) = ProcessOptions(xs) + ProcessOptions(ys)`. -/
theorem ProcessOptions_append (xs ys : List Option) :
    ProcessOptions (xs ++ ys) = ProcessOptions xs ++ ProcessOptions ys := by
  simp [ProcessOptions_eq, concatInOrder_append]

/-! ## C17: an array is a run of string options -/

/-- C17: for every param `p`, list of strings `vs` and string `d` that does
not occur in `vs`, `StringArray{p, vs}` renders as `ProcessOptions` of the
options `String(p, v, d)` for `v` in `vs`, in order. -/
theorem StringArray_as_String_run (p : GoString) (vs : List GoString) (d : GoString)
    (h : d ∉ vs) :
    (StringArray.mk p vs).OptionString =
      ProcessOptions (vs.map (fun v => Option.generic (String p v d))) := by
  rw [StringArray_OptionString_eq, ProcessOptions_eq, List.map_map]
  congr 1
  apply List.map_congr_left
  intro v hv
  have hne : v ≠ d := fun e => h (e ▸ hv)
  simp [Option.OptionString, String_OptionString_of_ne p v d hne]

theorem StringArray_as_String_run_witness :
    "" ∉ ["one", "two"] ∧
    (StringArray.mk "k" ["one", "two"]).OptionString =
      ProcessOptions (["one", "two"].map (fun v => Option.generic (String "k" v ""))) :=
  ⟨by decide, StringArray_as_String_run "k" ["one", "two"] "" (by decide)⟩

/-! ## The output as space-terminated pieces -/

theorem withSpaces_cons (t : List Char) (ts : List (List Char)) :
    withSpaces (t :: ts) = t ++ ' ' :: withSpaces ts := by
  simp [withSpaces]

theorem withSpaces_append (ts us : List (List Char)) :
    withSpaces (ts ++ us) = withSpaces ts ++ withSpaces us := by
  simp [withSpaces]

theorem StringArray_emitted (p : GoString) (vs : List GoString) :
    ((vs.map (fun v => p ++ " " ++ v ++ " ")).map String.data).flatten =
      withSpaces (vs.flatMap (fun v => [p.data, v.data])) := by
  induction vs with
  | nil => rfl
  | cons v rest ih =>
    simp only [List.map_cons, List.flatten_cons, List.flatMap_cons, ih]
    simp [withSpaces, String.data_append]

theorem OptionString_emitted (c : Construction) :
    c.build.OptionString.data = withSpaces c.emitted := by
  cases c with
  | uint p v d =>
    by_cases h : v = d <;>
      simp [Construction.build, Construction.emitted, Option.OptionString, Uint,
        NewGenericOption, GenericOption.OptionString, withSpaces, String.data_append, h]
  | int p v d =>
    by_cases h : v = d <;>
      simp [Construction.build, Construction.emitted, Option.OptionString, Int,
        NewGenericOption, GenericOption.OptionString, withSpaces, String.data_append, h]
  | string p v d =>
    by_cases h : v = d <;>
      simp [Construction.build, Construction.emitted, Option.OptionString, String,
        NewGenericOption, GenericOption.OptionString, withSpaces, String.data_append, h]
  | array p vs =>
    simp only [Construction.build, Construction.emitted, Option.OptionString]
    rw [StringArray_OptionString_eq, concatInOrder_data, StringArray_emitted]

theorem ProcessOptions_emitted (cs : List Construction) :
    (ProcessOptions (cs.map Construction.build)).data =
      withSpaces (cs.flatMap Construction.emitted) := by
  rw [ProcessOptions_eq, concatInOrder_data]
  induction cs with
  | nil => rfl
  | cons c rest ih =>
    simp only [List.map_cons, List.flatten_cons, List.flatMap_cons, withSpaces_append, ih,
      OptionString_emitted]

/-! ## C11: the tokens of the output -/

theorem splitSpaces_piece (t rest : List Char) (h : ' ' ∉ t) :
    splitSpaces (t ++ ' ' :: rest) = t :: splitSpaces rest := by
  induction t with
  | nil => simp [splitSpaces]
  | cons c t ih =>
    have hc : c ≠ ' ' := fun e => h (e ▸ List.mem_cons_self c t)
    have ht : ' ' ∉ t := fun m => h (List.mem_cons_of_mem c m)
    simp [splitSpaces, hc, ih ht]

theorem splitSpaces_withSpaces (ts : List (List Char)) (h : ∀ t ∈ ts, ' ' ∉ t) :
    splitSpaces (withSpaces ts) = ts ++ [[]] := by
  induction ts with
  | nil => rfl
  | cons t rest ih =>
    rw [withSpaces_cons, splitSpaces_piece t _ (h t (List.mem_cons_self t rest)),
      ih (fun u hu => h u (List.mem_cons_of_mem t hu))]
    rfl

theorem emitted_of_clean (c : Construction) (h : c.IsCleanText) :
    c.emitted = c.tokens.map String.data := by
  cases c with
  | uint p v d => exact absurd h id
  | int p v d => exact absurd h id
  | string p v d =>
    obtain ⟨_, _, hne⟩ := h
    simp [Construction.emitted, Construction.tokens, hne]
  | array p vs =>
    simp only [Construction.emitted, Construction.tokens]
    induction vs with
    | nil => rfl
    | cons v rest ih =>
      have hrest : (Construction.array p rest).IsCleanText :=
        ⟨h.1, fun u hu => h.2 u (List.mem_cons_of_mem v hu)⟩
      simp [List.flatMap_cons, ih hrest]

theorem tokens_noSpace (c : Construction) (h : c.IsCleanText) :
    ∀ t ∈ c.tokens, NoSpace t := by
  cases c with
  | uint p v d => exact absurd h id
  | int p v d => exact absurd h id
  | string p v d =>
    obtain ⟨hp, hv, _⟩ := h
    intro t ht
    simp only [Construction.tokens, List.mem_cons, List.mem_singleton, List.not_mem_nil,
      or_false] at ht
    rcases ht with rfl | rfl
    · exact hp.2
    · exact hv.2
  | array p vs =>
    obtain ⟨hp, hv⟩ := h
    intro t ht
    simp only [Construction.tokens, List.mem_flatMap, List.mem_cons, List.mem_singleton,
      List.not_mem_nil, or_false] at ht
    obtain ⟨v, hmem, rfl | rfl⟩ := ht
    · exact hp.2
    · exact (hv _ hmem).2

theorem flatMap_emitted_of_clean (cs : List Construction) (h : ∀ c ∈ cs, c.IsCleanText) :
    cs.flatMap Construction.emitted = (cs.flatMap Construction.tokens).map String.data := by
  induction cs with
  | nil => rfl
  | cons c rest ih =>
    simp only [List.flatMap_cons, List.map_append,
      emitted_of_clean c (h c (List.mem_cons_self c rest)),
      ih (fun x hx => h x (List.mem_cons_of_mem c hx))]

/-- C11: for every sequence of `String` and `StringArray` options in which
every param and every text value is non-empty and free of spaces, and no
`String` option has its value equal to its default, splitting the output of
`ProcessOptions` on the space character gives the tokens `param`, `value` of
each `String` option and `param`, `element` of each array element, in option
order and element order, followed by one final empty piece (the text after
the trailing space); dropping that final piece leaves exactly the tokens. -/
theorem ProcessOptions_tokens (cs : List Construction) (h : ∀ c ∈ cs, c.IsCleanText) :
    splitOnSpace (ProcessOptions (cs.map Construction.build)) =
        cs.flatMap Construction.tokens ++ [""] ∧
      (splitOnSpace (ProcessOptions (cs.map Construction.build))).dropLast =
        cs.flatMap Construction.tokens := by
  have hns : ∀ t ∈ (cs.flatMap Construction.tokens).map String.data, ' ' ∉ t := by
    intro t ht
    rw [List.mem_map] at ht
    obtain ⟨s, hs, rfl⟩ := ht
    rw [List.mem_flatMap] at hs
    obtain ⟨c, hc, hsc⟩ := hs
    exact tokens_noSpace c (h c hc) s hsc
  have hsplit : splitOnSpace (ProcessOptions (cs.map Construction.build)) =
      cs.flatMap Construction.tokens ++ [""] := by
    unfold splitOnSpace
    rw [ProcessOptions_emitted, flatMap_emitted_of_clean cs h, splitSpaces_withSpaces _ hns]
    simp [List.map_map, Function.comp_def]
  refine ⟨hsplit, ?_⟩
  rw [hsplit, List.dropLast_concat]

theorem ProcessOptions_tokens_witness :
    (∀ c ∈ [Construction.string "k" "v" "", .array "p" ["x", "y"], .array "q" []],
      c.IsCleanText) ∧
    splitOnSpace (ProcessOptions ([Construction.string "k" "v" "", .array "p" ["x", "y"],
      .array "q" []].map Construction.build)) =
      [Construction.string "k" "v" "", .array "p" ["x", "y"],
        .array "q" []].flatMap Construction.tokens ++ [""] ∧
    (splitOnSpace (ProcessOptions ([Construction.string "k" "v" "", .array "p" ["x", "y"],
      .array "q" []].map Construction.build))).dropLast =
      [Construction.string "k" "v" "", .array "p" ["x", "y"],
        .array "q" []].flatMap Construction.tokens :=
  ⟨by decide, ProcessOptions_tokens _ (by decide)⟩

/-! ## C13: the first character of the output -/

theorem emitted_head (c : Construction) :
    c.emitted = [] ∨ ∃ rest, c.emitted = c.param.data :: rest := by
  cases c with
  | uint p v d =>
    by_cases h : v = d <;> simp [Construction.emitted, Construction.param, h]
  | int p v d =>
    by_cases h : v = d <;> simp [Construction.emitted, Construction.param, h]
  | string p v d =>
    by_cases h : v = d <;> simp [Construction.emitted, Construction.param, h]
  | array p vs =>
    cases vs with
    | nil => exact Or.inl rfl
    | cons v rest =>
      right
      simp [Construction.emitted, Construction.param, List.flatMap_cons]

theorem withSpaces_emitted_head (cs : List Construction)
    (h : ∀ c ∈ cs, c.param ≠ "" ∧ ¬ StartsWithSpace c.param) :
    (withSpaces (cs.flatMap Construction.emitted)).head? ≠ some ' ' := by
  induction cs with
  | nil => simp [withSpaces]
  | cons c rest ih =>
    have hrest := ih (fun x hx => h x (List.mem_cons_of_mem c hx))
    obtain ⟨hne, hsp⟩ := h c (List.mem_cons_self c rest)
    rw [List.flatMap_cons, withSpaces_append]
    rcases emitted_head c with h0 | ⟨r, hr⟩
    · rw [h0]
      simpa [withSpaces] using hrest
    · rw [hr, withSpaces_cons]
      cases hp : c.param.data with
      | nil => exact absurd ((data_eq_nil_iff c.param).1 hp) hne
      | cons a l =>
        unfold StartsWithSpace at hsp
        rw [hp] at hsp
        simpa using hsp

/-- C13, as stated, fails: a `String` option with an empty param, or with a
param that begins with a space, gives an output that begins with a space. -/
theorem ProcessOptions_leading_space :
    StartsWithSpace (ProcessOptions [.generic (String "" "a" "")]) ∧
    StartsWithSpace (ProcessOptions [.generic (String " x" "a" "")]) := by
  decide

/-- C13, amended: for every sequence of options built from `Uint`, `Int`,
`String` and `StringArray` whose params are non-empty and do not begin with a
space, the output of `ProcessOptions` does not begin with a space. -/
theorem ProcessOptions_no_leading_space (cs : List Construction)
    (h : ∀ c ∈ cs, c.param ≠ "" ∧ ¬ StartsWithSpace c.param) :
    ¬ StartsWithSpace (ProcessOptions (cs.map Construction.build)) := by
  unfold StartsWithSpace
  rw [ProcessOptions_emitted]
  exact withSpaces_emitted_head cs h

theorem ProcessOptions_no_leading_space_witness :
    (∀ c ∈ [Construction.uint "n" 0 0, .int "i" (-3) 0, .string "s" " t" "",
        .array "a" ["", " "]],
      c.param ≠ "" ∧ ¬ StartsWithSpace c.param) ∧
    ¬ StartsWithSpace (ProcessOptions ([Construction.uint "n" 0 0, .int "i" (-3) 0,
      .string "s" " t" "", .array "a" ["", " "]].map Construction.build)) :=
  ⟨by decide, ProcessOptions_no_leading_space _ (by decide)⟩

/-! ## C14: single spaces between tokens -/

theorem digitChar_ne_space (n : Nat) : Nat.digitChar n ≠ ' ' := by
  by_cases h : n < 16
  · interval_cases n <;> decide
  · have hstar : Nat.digitChar n = '*' := by
      simp only [Nat.digitChar]
      repeat (rw [if_neg (by omega)])
    rw [hstar]
    decide

theorem formatBits_noSpace (fuel : Nat) :
    ∀ (u : Nat) (a : List Char), ' ' ∉ a → ' ' ∉ formatBits fuel u a := by
  induction fuel with
  | zero =>
    intro u a ha
    exact ha
  | succ f ih =>
    intro u a ha
    unfold formatBits
    split_ifs with h10
    · intro hm
      rcases List.mem_cons.1 hm with e | m
      · exact digitChar_ne_space u e.symm
      · exact ha m
    · apply ih
      intro hm
      rcases List.mem_cons.1 hm with e | m
      · exact digitChar_ne_space (u % 10) e.symm
      · exact ha m

theorem formatBits_ne_nil_of_ne_nil (fuel : Nat) :
    ∀ (u : Nat) (a : List Char), a ≠ [] → formatBits fuel u a ≠ [] := by
  induction fuel with
  | zero =>
    intro u a ha
    exact ha
  | succ f ih =>
    intro u a _
    unfold formatBits
    split_ifs with h10
    · exact List.cons_ne_nil _ _
    · exact ih _ _ (List.cons_ne_nil _ _)

theorem formatBits_succ_ne_nil (fuel u : Nat) (a : List Char) :
    formatBits (fuel + 1) u a ≠ [] := by
  unfold formatBits
  split_ifs with h10
  · exact List.cons_ne_nil _ _
  · exact formatBits_ne_nil_of_ne_nil fuel _ _ (List.cons_ne_nil _ _)

theorem FormatUint_piece (i : Nat) : (FormatUint i).data ≠ [] ∧ ' ' ∉ (FormatUint i).data :=
  ⟨formatBits_succ_ne_nil 19 i [], formatBits_noSpace 20 i [] (List.not_mem_nil _)⟩

theorem Itoa_piece (i : ℤ) : (Itoa i).data ≠ [] ∧ ' ' ∉ (Itoa i).data := by
  unfold Itoa FormatInt
  simp only []
  split_ifs with hneg
  · refine ⟨List.cons_ne_nil _ _, ?_⟩
    intro hm
    rcases List.mem_cons.1 hm with e | m
    · exact absurd e (by decide)
    · exact formatBits_noSpace 20 _ [] (List.not_mem_nil _) m
  · exact ⟨formatBits_succ_ne_nil 19 _ [], formatBits_noSpace 20 _ [] (List.not_mem_nil _)⟩

theorem emitted_pieces (c : Construction)
    (h : IsToken c.param ∧ ∀ t ∈ c.texts, IsToken t) :
    ∀ t ∈ c.emitted, t ≠ [] ∧ ' ' ∉ t := by
  have hp : c.param.data ≠ [] ∧ ' ' ∉ c.param.data :=
    ⟨fun e => h.1.1 ((data_eq_nil_iff _).1 e), h.1.2⟩
  have htok : ∀ s : GoString, IsToken s → s.data ≠ [] ∧ ' ' ∉ s.data :=
    fun s hs => ⟨fun e => hs.1 ((data_eq_nil_iff _).1 e), hs.2⟩
  cases c with
  | uint p v d =>
    intro t ht
    by_cases hvd : v = d
    · simp [Construction.emitted, hvd] at ht
    · simp only [Construction.emitted, hvd, if_false, List.mem_cons, List.mem_singleton,
        List.not_mem_nil, or_false] at ht
      rcases ht with rfl | rfl
      · exact hp
      · exact FormatUint_piece _
  | int p v d =>
    intro t ht
    by_cases hvd : v = d
    · simp [Construction.emitted, hvd] at ht
    · simp only [Construction.emitted, hvd, if_false, List.mem_cons, List.mem_singleton,
        List.not_mem_nil, or_false] at ht
      rcases ht with rfl | rfl
      · exact hp
      · exact Itoa_piece _
  | string p v d =>
    intro t ht
    by_cases hvd : v = d
    · simp [Construction.emitted, hvd] at ht
    · simp only [Construction.emitted, hvd, if_false, List.mem_cons, List.mem_singleton,
        List.not_mem_nil, or_false] at ht
      rcases ht with rfl | rfl
      · exact hp
      · exact htok v (h.2 v (by simp [Construction.texts]))
  | array p vs =>
    intro t ht
    simp only [Construction.emitted, List.mem_flatMap, List.mem_cons, List.mem_singleton,
      List.not_mem_nil, or_false] at ht
    obtain ⟨v, hmem, rfl | rfl⟩ := ht
    · exact hp
    · exact htok _ (h.2 _ hmem)

theorem no_double_space_cons (t X : List Char) (ht : ' ' ∉ t)
    (hX1 : X.head? ≠ some ' ') (hX2 : ¬ [' ', ' '] <:+: X) :
    ¬ [' ', ' '] <:+: t ++ ' ' :: X := by
  induction t with
  | nil =>
    rw [List.nil_append, List.infix_cons_iff]
    rintro (hpre | hinf)
    · rw [List.cons_prefix_cons] at hpre
      obtain ⟨r, hr⟩ := hpre.2
      apply hX1
      rw [← hr]
      rfl
    · exact hX2 hinf
  | cons c t ih =>
    have hc : c ≠ ' ' := fun e => ht (e ▸ List.mem_cons_self c t)
    have ht2 : ' ' ∉ t := fun m => ht (List.mem_cons_of_mem c m)
    rw [List.cons_append, List.infix_cons_iff]
    rintro (hpre | hinf)
    · rw [List.cons_prefix_cons] at hpre
      exact hc hpre.1.symm
    · exact ih ht2 hinf

theorem withSpaces_single_spaces (ts : List (List Char))
    (h : ∀ t ∈ ts, t ≠ [] ∧ ' ' ∉ t) :
    (withSpaces ts).head? ≠ some ' ' ∧ ¬ [' ', ' '] <:+: withSpaces ts := by
  induction ts with
  | nil =>
    constructor
    · simp [withSpaces]
    · simp [withSpaces]
  | cons t rest ih =>
    obtain ⟨ih1, ih2⟩ := ih (fun u hu => h u (List.mem_cons_of_mem t hu))
    obtain ⟨hne, hsp⟩ := h t (List.mem_cons_self t rest)
    rw [withSpaces_cons]
    refine ⟨?_, no_double_space_cons t _ hsp ih1 ih2⟩
    cases t with
    | nil => exact absurd rfl hne
    | cons a l =>
      have ha : a ≠ ' ' := fun e => hsp (e ▸ List.mem_cons_self a l)
      simpa using ha

/-- C14, as stated, fails: params and text values that contain no space may be
empty, and an empty value or an empty param puts two spaces side by side. -/
theorem ProcessOptions_double_space :
    ((∀ c ∈ [Construction.string "p" "" "d"],
        NoSpace c.param ∧ ∀ t ∈ c.texts, NoSpace t) ∧
      HasDoubleSpace (ProcessOptions ([Construction.string "p" "" "d"].map
        Construction.build))) ∧
    ((∀ c ∈ [Construction.uint "n" 1 0, .uint "" 2 0],
        NoSpace c.param ∧ ∀ t ∈ c.texts, NoSpace t) ∧
      HasDoubleSpace (ProcessOptions ([Construction.uint "n" 1 0, .uint "" 2 0].map
        Construction.build))) := by
  decide

/-- C14, amended: for every sequence of `Uint`, `Int`, `String` and
`StringArray` options whose params and text values are non-empty and contain
no space character, the output of `ProcessOptions` never contains two
consecutive spaces. -/
theorem ProcessOptions_single_spaces (cs : List Construction)
    (h : ∀ c ∈ cs, IsToken c.param ∧ ∀ t ∈ c.texts, IsToken t) :
    ¬ HasDoubleSpace (ProcessOptions (cs.map Construction.build)) := by
  unfold HasDoubleSpace
  rw [ProcessOptions_emitted]
  apply (withSpaces_single_spaces _ ?_).2
  intro t ht
  rw [List.mem_flatMap] at ht
  obtain ⟨c, hc, htc⟩ := ht
  exact emitted_pieces c (h c hc) t htc

theorem ProcessOptions_single_spaces_witness :
    (∀ c ∈ [Construction.uint "n" 12 0, .int "i" (-3) 0, .string "s" "t" "",
        .array "a" ["x", "y"]],
      IsToken c.param ∧ ∀ t ∈ c.texts, IsToken t) ∧
    ¬ HasDoubleSpace (ProcessOptions ([Construction.uint "n" 12 0, .int "i" (-3) 0,
      .string "s" "t" "", .array "a" ["x", "y"]].map Construction.build)) :=
  ⟨by decide, ProcessOptions_single_spaces _ (by decide)⟩

/-! ## C18: numerals do not collide -/

theorem digitChar_value (d : Nat) (h : d < 10) : (Nat.digitChar d).toNat - 48 = d := by
  interval_cases d <;> rfl

theorem digitChar_ne_minus (n : Nat) : Nat.digitChar n ≠ '-' := by
  by_cases h : n < 16
  · interval_cases n <;> decide
  · have hstar : Nat.digitChar n = '*' := by
      simp only [Nat.digitChar]
      repeat (rw [if_neg (by omega)])
    rw [hstar]
    decide

theorem unsignedNumeral_data (v : Nat) :
    (unsignedNumeral v).data =
      if v = 0 then ['0'] else (Nat.digits 10 v).reverse.map Nat.digitChar := by
  unfold unsignedNumeral
  split_ifs <;> rfl

theorem unsignedNumeral_value (v : Nat) :
    Nat.ofDigits 10 (((unsignedNumeral v).data.map (fun c => c.toNat - 48)).reverse) = v := by
  rw [unsignedNumeral_data]
  by_cases h0 : v = 0
  · subst h0
    rfl
  · rw [if_neg h0, List.map_map, ← List.map_reverse, List.reverse_reverse]
    have hmap : (Nat.digits 10 v).map ((fun c : Char => c.toNat - 48) ∘ Nat.digitChar) =
        Nat.digits 10 v := by
      conv_rhs => rw [← List.map_id (Nat.digits 10 v)]
      apply List.map_congr_left
      intro d hd
      exact digitChar_value d (Nat.digits_lt_base (by norm_num) hd)
    rw [hmap, Nat.ofDigits_digits]

theorem unsignedNumeral_injective (a b : Nat) (h : unsignedNumeral a = unsignedNumeral b) :
    a = b := by
  rw [← unsignedNumeral_value a, ← unsignedNumeral_value b, h]

theorem unsignedNumeral_no_minus (v : Nat) : '-' ∉ (unsignedNumeral v).data := by
  rw [unsignedNumeral_data]
  split_ifs with h0
  · decide
  · intro hm
    rw [List.mem_map] at hm
    obtain ⟨d, _, hd⟩ := hm
    exact digitChar_ne_minus d hd

theorem signedNumeral_data (w : ℤ) :
    (signedNumeral w).data =
      if w < 0 then '-' :: (unsignedNumeral w.natAbs).data
      else (unsignedNumeral w.natAbs).data := by
  unfold signedNumeral
  split_ifs <;> simp [String.data_append]

theorem signedNumeral_injective (a b : ℤ) (h : signedNumeral a = signedNumeral b) :
    a = b := by
  have hd := congrArg String.data h
  rw [signedNumeral_data, signedNumeral_data] at hd
  by_cases ha : a < 0 <;> by_cases hb : b < 0
  · simp only [ha, hb, if_true, List.cons.injEq, true_and] at hd
    have := unsignedNumeral_injective _ _ (String.ext hd)
    omega
  · simp only [ha, hb, if_true, if_false] at hd
    exact absurd (hd ▸ List.mem_cons_self _ _) (unsignedNumeral_no_minus b.natAbs)
  · simp only [ha, hb, if_true, if_false] at hd
    exact absurd (hd ▸ List.mem_cons_self _ _) (unsignedNumeral_no_minus a.natAbs)
  · simp only [ha, hb, if_false] at hd
    have := unsignedNumeral_injective _ _ (String.ext hd)
    omega

theorem Uint_OptionString_of_ne (p : GoString) (v d : Nat) (hv : v < 2 ^ 64) (h : v ≠ d) :
    (Uint p v d).OptionString = p ++ " " ++ unsignedNumeral v ++ " " := by
  simp [Uint, NewGenericOption, GenericOption.OptionString, h, toUint64_of_lt v hv,
    FormatUint_eq v hv]

theorem Int_OptionString_of_ne (p : GoString) (w e : ℤ) (h1 : -2 ^ 63 ≤ w) (h2 : w < 2 ^ 63)
    (h : w ≠ e) :
    (Int p w e).OptionString = p ++ " " ++ signedNumeral w ++ " " := by
  simp [Int, NewGenericOption, GenericOption.OptionString, h, Itoa,
    toInt64_of_range w h1 h2, FormatInt_eq w h1 h2]

theorem pair_cancel (p a b : GoString) (h : p ++ " " ++ a ++ " " = p ++ " " ++ b ++ " ") :
    a = b := by
  have hd := congrArg String.data h
  simp only [String.data_append, List.append_assoc, List.append_cancel_left_eq,
    List.append_cancel_right_eq] at hd
  exact String.ext hd

/-- C18: for every param `p` and default, two different values of the Go type
that both differ from the default render differently, for `Uint` (values
`v1`, `v2`, default `d`) and for `Int` (values `w1`, `w2`, default `e`). -/
theorem numeric_rendering_injective (p : GoString) (d v1 v2 : Nat) (e w1 w2 : ℤ)
    (hv1 : v1 < 2 ^ 64) (hv2 : v2 < 2 ^ 64)
    (hv : v1 ≠ v2) (hv1d : v1 ≠ d) (hv2d : v2 ≠ d)
    (hw1 : -2 ^ 63 ≤ w1 ∧ w1 < 2 ^ 63) (hw2 : -2 ^ 63 ≤ w2 ∧ w2 < 2 ^ 63)
    (hw : w1 ≠ w2) (hw1e : w1 ≠ e) (hw2e : w2 ≠ e) :
    (Uint p v1 d).OptionString ≠ (Uint p v2 d).OptionString ∧
      (Int p w1 e).OptionString ≠ (Int p w2 e).OptionString := by
  constructor
  · rw [Uint_OptionString_of_ne p v1 d hv1 hv1d, Uint_OptionString_of_ne p v2 d hv2 hv2d]
    intro h
    exact hv (unsignedNumeral_injective v1 v2 (pair_cancel p _ _ h))
  · rw [Int_OptionString_of_ne p w1 e hw1.1 hw1.2 hw1e,
      Int_OptionString_of_ne p w2 e hw2.1 hw2.2 hw2e]
    intro h
    exact hw (signedNumeral_injective w1 w2 (pair_cancel p _ _ h))

theorem numeric_rendering_injective_witness :
    (7 : Nat) < 2 ^ 64 ∧ (70 : Nat) < 2 ^ 64 ∧ (7 : Nat) ≠ 70 ∧ (7 : Nat) ≠ 0 ∧
    (70 : Nat) ≠ 0 ∧ ((-2 ^ 63 : ℤ) ≤ 5 ∧ (5 : ℤ) < 2 ^ 63) ∧
    ((-2 ^ 63 : ℤ) ≤ -5 ∧ (-5 : ℤ) < 2 ^ 63) ∧ (5 : ℤ) ≠ -5 ∧ (5 : ℤ) ≠ 0 ∧ (-5 : ℤ) ≠ 0 ∧
    (Uint "n" 7 0).OptionString ≠ (Uint "n" 70 0).OptionString ∧
      (Int "n" 5 0).OptionString ≠ (Int "n" (-5) 0).OptionString :=
  ⟨by norm_num, by norm_num, by norm_num, by norm_num, by norm_num, by norm_num,
    by norm_num, by norm_num, by norm_num, by norm_num,
    numeric_rendering_injective "n" 0 7 70 0 5 (-5) (by norm_num) (by norm_num)
      (by norm_num) (by norm_num) (by norm_num) (by norm_num) (by norm_num) (by norm_num)
      (by norm_num) (by norm_num)⟩

end Utm
